import Mathlib

/-!
Verification of libcmdf (single-header command-line shell library).

Shallow embedding of the argument tokenizer (`cmdf_parse_arguments`), the
arglist release routine (`cmdf_free_arglist`), the command registry
(`cmdf_register_command`, `cmdf_init`, the settings stack) and the default
dispatch callbacks (`cmdf__default_do_command`, `cmdf__default_do_help`,
`cmdf__print_command_list`), translated from `libcmdf.h`.

Strings are modelled as `List Char` (the C code never reads past the NUL
terminator, so a char list is an exact model of the string contents).
-/

namespace LibCmdf

/-- Error codes from libcmdf.h (`CMDF_RETURN` is a C int). -/
def CMDF_OK : Int := 1

def CMDF_ERROR_TOO_MANY_COMMANDS : Int := -1

def CMDF_ERROR_TOO_MANY_ARGS : Int := -2

def CMDF_ERROR_UNKNOWN_COMMAND : Int := -3

def CMDF_ERROR_ARGUMENT_ERROR : Int := -4

def CMDF_ERROR_OUT_OF_MEMORY : Int := -5

def CMDF_ERROR_OUT_OF_PROCESS_STACK : Int := -6

/-- Default configuration constants from libcmdf.h. -/
def CMDF_MAX_COMMANDS : Nat := 24

def CMDF_MAX_SUBPROCESSES : Nat := 4

/-- C `isspace` in the default locale: space, \t, \n, \v, \f, \r. -/
def cmdf_isspace (c : Char) : Bool :=
  c = ' ' || c = '\t' || c = '\n' || c = '\x0b' || c = '\x0c' || c = '\r'

/-- The tokenizer state machine of `cmdf_parse_arguments`
(`enum states { NONE, IN_WORD, IN_QUOTES }`). -/
inductive ParseState where
  | NONE
  | IN_WORD
  | IN_QUOTES
deriving DecidableEq, Repr

/-- An argument list (`cmdf_arglist`): the `args` string vector (without its
trailing NULL sentinel) together with the separately stored `count` field. -/
structure cmdf_arglist where
  args : List (List Char)
  count : Nat
deriving DecidableEq, Repr

/-- First pass of `cmdf_parse_arguments` (libcmdf.h lines 507-562): walk the
state machine over the line and count tokens; one more token is counted at end
of input when the final state is not `NONE`. -/
def cmdf_count_pass (st : ParseState) : List Char → Nat
  | [] => if st = ParseState.NONE then 0 else 1
  | c :: rest =>
    match st with
    | ParseState.NONE =>
      if cmdf_isspace c then cmdf_count_pass ParseState.NONE rest
      else if c = '"' then cmdf_count_pass ParseState.IN_QUOTES rest
      else cmdf_count_pass ParseState.IN_WORD rest
    | ParseState.IN_QUOTES =>
      if cmdf_isspace c then cmdf_count_pass ParseState.IN_QUOTES rest
      else if c = '"' then 1 + cmdf_count_pass ParseState.NONE rest
      else cmdf_count_pass ParseState.IN_QUOTES rest
    | ParseState.IN_WORD =>
      if cmdf_isspace c then 1 + cmdf_count_pass ParseState.NONE rest
      else if c = '"' then cmdf_count_pass ParseState.IN_WORD rest
      else cmdf_count_pass ParseState.IN_WORD rest

/-- Second pass of `cmdf_parse_arguments` (libcmdf.h lines 571-621): rebuild
the tokens.  `acc` is the text between `startptr` and the cursor; `remaining`
is `arglist->count - i`, so the final token is materialised exactly when the C
guard `state != NONE && i < arglist->count` holds at end of input (in-loop
stores are unguarded, as in the C). -/
def cmdf_fill_pass (st : ParseState) (acc : List Char) (remaining : Nat) :
    List Char → List (List Char)
  | [] => if st ≠ ParseState.NONE ∧ remaining ≠ 0 then [acc] else []
  | c :: rest =>
    match st with
    | ParseState.NONE =>
      if cmdf_isspace c then cmdf_fill_pass ParseState.NONE acc remaining rest
      else if c = '"' then cmdf_fill_pass ParseState.IN_QUOTES [] remaining rest
      else cmdf_fill_pass ParseState.IN_WORD [c] remaining rest
    | ParseState.IN_QUOTES =>
      if c = '"' then acc :: cmdf_fill_pass ParseState.NONE [] (remaining - 1) rest
      else cmdf_fill_pass ParseState.IN_QUOTES (acc ++ [c]) remaining rest
    | ParseState.IN_WORD =>
      if cmdf_isspace c then acc :: cmdf_fill_pass ParseState.NONE [] (remaining - 1) rest
      else cmdf_fill_pass ParseState.IN_WORD (acc ++ [c]) remaining rest

/-- `cmdf_parse_arguments` (libcmdf.h lines 490-624): `NULL` line gives `NULL`;
otherwise run the count pass, then the fill pass.  Allocation is modelled as
always succeeding. -/
def cmdf_parse_arguments (argline : Option (List Char)) : Option cmdf_arglist :=
  match argline with
  | none => none
  | some cs =>
    let count := cmdf_count_pass ParseState.NONE cs
    some { args := cmdf_fill_pass ParseState.NONE [] count cs, count := count }

/-- The token list produced by `cmdf_parse_arguments` on a non-NULL line. -/
def cmdf_tokens (cs : List Char) : List (List Char) :=
  match cmdf_parse_arguments (some cs) with
  | some al => al.args
  | none => []

/-- Proof-side single-pass tokenizer: same transitions as the two passes of
`cmdf_parse_arguments`, emitting each token where the C stores it, and the
final token unconditionally when the end state is not `NONE`.  Proved equal to
the two-pass composition below. -/
def cmdf_run (st : ParseState) (acc : List Char) : List Char → List (List Char)
  | [] => if st = ParseState.NONE then [] else [acc]
  | c :: rest =>
    match st with
    | ParseState.NONE =>
      if cmdf_isspace c then cmdf_run ParseState.NONE acc rest
      else if c = '"' then cmdf_run ParseState.IN_QUOTES [] rest
      else cmdf_run ParseState.IN_WORD [c] rest
    | ParseState.IN_QUOTES =>
      if c = '"' then acc :: cmdf_run ParseState.NONE [] rest
      else cmdf_run ParseState.IN_QUOTES (acc ++ [c]) rest
    | ParseState.IN_WORD =>
      if cmdf_isspace c then acc :: cmdf_run ParseState.NONE [] rest
      else cmdf_run ParseState.IN_WORD (acc ++ [c]) rest

/-- `size_t` modulus: the loop counter of `cmdf_free_arglist` is a `size_t`. -/
def SIZE_T_MOD : Nat := 2 ^ 64

/-- Which indices `i` of `arglist->args` the loop of `cmdf_free_arglist`
(libcmdf.h lines 626-639) calls `CMDF_FREE(arglist->args[i])` on: the loop is
`for (i = 0; i < arglist->count - 1; i++)` with `i` and `count` of type
`size_t`, so the bound is `count - 1` computed modulo `2^64`. -/
def cmdf_free_arglist_frees (count i : Nat) : Prop :=
  i < (count + (SIZE_T_MOD - 1)) % SIZE_T_MOD

instance (count i : Nat) : Decidable (cmdf_free_arglist_frees count i) :=
  inferInstanceAs (Decidable (_ < _))

/-- A command table entry (`struct cmdf__entry_s`): name, optional help text
(NULL modelled as `none`), and the callback.  The callback type is a type
parameter so the registry model does not fix how callbacks are interpreted. -/
structure cmdf__entry (α : Type) where
  cmdname : List Char
  help : Option (List Char)
  callback : α
deriving Repr

/-- One settings frame (`struct cmdf__settings_s`). -/
structure cmdf__settings (α : Type) where
  prompt : List Char
  intro : List Char
  doc_header : List Char
  undoc_header : List Char
  ruler : Char
  undoc_cmds : Nat
  doc_cmds : Nat
  entry_count : Nat
  entry_start : Nat
  exit_flag : Bool
  do_emptyline : α
  do_command : α

/-- The global mutable state: the settings stack (`cmdf__settings_stack`, head
of the list is `top`) and the flat entry table `cmdf__entries`, modelled as a
total map from index to entry (the C array is fixed-size; all accesses the
claims concern are in bounds). -/
structure cmdf__state (α : Type) where
  stack : List (cmdf__settings α)
  entries : Nat → cmdf__entry α

/-- Defaults from libcmdf.h lines 202-206. -/
def cmdf__default_prompt : List Char := "(libcmdf) ".data

def cmdf__default_intro : List Char := "".data

def cmdf__default_doc_header : List Char := "Documented Commands:".data

def cmdf__default_undoc_header : List Char := "Undocumented Commands:".data

def cmdf__default_ruler : Char := '='

/-- `cmdf_register_command` (libcmdf.h lines 642-665): refuse when the active
frame already holds `CMDF_MAX_COMMANDS` entries; otherwise write the new entry
at index `entry_start + entry_count` of the flat table, bump `entry_count`,
and bump the documented/undocumented counter.  (With an empty stack the C code
would dereference a NULL `top`; that situation is unreachable through the
public API and the model returns the state unchanged.) -/
def cmdf_register_command {α : Type} (s : cmdf__state α) (callback : α)
    (cmdname : List Char) (help : Option (List Char)) : Int × cmdf__state α :=
  match s.stack with
  | [] => (CMDF_OK, s)
  | top :: rest =>
    if top.entry_count = CMDF_MAX_COMMANDS then
      (CMDF_ERROR_TOO_MANY_COMMANDS, s)
    else
      let new_index := top.entry_start + top.entry_count
      let entries' : Nat → cmdf__entry α := fun i =>
        if i = new_index then ⟨cmdname, help, callback⟩ else s.entries i
      let top' : cmdf__settings α :=
        { top with
          entry_count := top.entry_count + 1
          doc_cmds := if help.isSome then top.doc_cmds + 1 else top.doc_cmds
          undoc_cmds := if help.isSome then top.undoc_cmds else top.undoc_cmds + 1 }
      (CMDF_OK, { stack := top' :: rest, entries := entries' })

/-- The settings frame built by `cmdf_init` before it is pushed (libcmdf.h
lines 398-416): all counters zero, `entry_start` continuing directly after the
current top frame's range (`0` on an empty stack, from the initial `memset`). -/
def cmdf_init_settings {α : Type} (s : cmdf__state α)
    (prompt intro doc_header undoc_header : Option (List Char))
    (ruler : Option Char) (do_command_cb do_emptyline_cb : α) :
    cmdf__settings α :=
  { prompt := prompt.getD cmdf__default_prompt
    intro := intro.getD cmdf__default_intro
    doc_header := doc_header.getD cmdf__default_doc_header
    undoc_header := undoc_header.getD cmdf__default_undoc_header
    ruler := ruler.getD cmdf__default_ruler
    doc_cmds := 0
    undoc_cmds := 0
    entry_count := 0
    entry_start :=
      match s.stack with
      | [] => 0
      | top :: _ => top.entry_start + top.entry_count
    exit_flag := false
    do_emptyline := do_emptyline_cb
    do_command := do_command_cb }

/-- `cmdf_init` (libcmdf.h lines 396-440): build the settings frame, push it
when the stack is below `CMDF_MAX_SUBPROCESSES` (otherwise the C code calls
`exit()`, modelled as `none`), then register the built-in `help` command and,
when requested, the built-in `exit` command. -/
def cmdf_init {α : Type} (s : cmdf__state α)
    (prompt intro doc_header undoc_header : Option (List Char))
    (ruler : Option Char) (use_default_exit : Bool)
    (help_cb exit_cb do_command_cb do_emptyline_cb : α) :
    Option (cmdf__state α) :=
  let settings := cmdf_init_settings s prompt intro doc_header undoc_header
    ruler do_command_cb do_emptyline_cb
  if s.stack.length < CMDF_MAX_SUBPROCESSES then
    let s1 : cmdf__state α := { s with stack := settings :: s.stack }
    let s2 := (cmdf_register_command s1 help_cb "help".data
      (some "Get information on a command or list commands.".data)).2
    if use_default_exit then
      some (cmdf_register_command s2 exit_cb "exit".data
        (some "Quit the application".data)).2
    else
      some s2
  else
    none

/-- Callback type used where the dispatch model actually invokes handlers
(`cmdf_command_callback`: takes the arglist, possibly NULL, returns a code). -/
abbrev cmdf_callback := Option cmdf_arglist → Int

/-- The scan loop of `cmdf__default_do_command` (libcmdf.h lines 725-727):
`i` is the current index, the second `Nat` argument the number of entries left
to inspect (the loop runs `i` from `entry_start` to
`entry_start + entry_count`). -/
def cmdf__do_command_loop (entries : Nat → cmdf__entry cmdf_callback)
    (cmdname : List Char) (arglist : Option cmdf_arglist) :
    Nat → Nat → Int
  | _i, 0 => CMDF_ERROR_UNKNOWN_COMMAND
  | i, fuel + 1 =>
    if (entries i).cmdname = cmdname then (entries i).callback arglist
    else cmdf__do_command_loop entries cmdname arglist (i + 1) fuel

/-- `cmdf__default_do_command` (libcmdf.h lines 721-730): scan the active
frame's range in index order; execute the first entry whose name matches,
otherwise report `CMDF_ERROR_UNKNOWN_COMMAND`. -/
def cmdf__default_do_command (entries : Nat → cmdf__entry cmdf_callback)
    (top : cmdf__settings cmdf_callback) (cmdname : List Char)
    (arglist : Option cmdf_arglist) : Int :=
  cmdf__do_command_loop entries cmdname arglist top.entry_start top.entry_count

/-- The entries of the active frame's range, in index order. -/
def cmdf_active_slice {α : Type} (entries : Nat → cmdf__entry α)
    (top : cmdf__settings α) : List (cmdf__entry α) :=
  (List.range' top.entry_start top.entry_count).map entries

/-- Specification-side resolve, written from the spec's words (§4.2): "linear
scan restricted to the context's range only; first match wins".  Used only to
compare `cmdf__default_do_command` against. -/
def spec_resolve {α : Type} (entries : Nat → cmdf__entry α)
    (top : cmdf__settings α) (cmdname : List Char) : Option (cmdf__entry α) :=
  (cmdf_active_slice entries top).find? (fun e => e.cmdname = cmdname)

/-- One pass of `cmdf__print_command_list` (libcmdf.h lines 360-371 resp.
378-389): collect, over the active frame's range, the names of the entries
whose help field satisfies `p` (presence for the documented listing, absence
for the undocumented one). -/
def cmdf__print_list_loop {α : Type} (entries : Nat → cmdf__entry α)
    (p : Option (List Char) → Bool) : Nat → Nat → List (List Char)
  | _i, 0 => []
  | i, fuel + 1 =>
    (if p (entries i).help then [(entries i).cmdname] else []) ++
      cmdf__print_list_loop entries p (i + 1) fuel

/-- `cmdf__print_command_list` (libcmdf.h lines 354-393), modelled as the pair
(documented names printed, undocumented names printed); the undocumented
section is only printed when `undoc_cmds > 0`. -/
def cmdf__print_command_list {α : Type} (entries : Nat → cmdf__entry α)
    (top : cmdf__settings α) : List (List Char) × List (List Char) :=
  (cmdf__print_list_loop entries Option.isSome top.entry_start top.entry_count,
   if 0 < top.undoc_cmds then
     cmdf__print_list_loop entries Option.isNone top.entry_start top.entry_count
   else [])

/-- The scan loop of `cmdf__default_do_help`'s one-argument branch (libcmdf.h
lines 676-688): on the first name match it prints the entry's help (or "(No
documentation)") and returns `CMDF_OK`; falling off the range returns
`CMDF_ERROR_UNKNOWN_COMMAND`. -/
def cmdf__do_help_loop {α : Type} (entries : Nat → cmdf__entry α)
    (argname : List Char) : Nat → Nat → Int
  | _i, 0 => CMDF_ERROR_UNKNOWN_COMMAND
  | i, fuel + 1 =>
    if (entries i).cmdname = argname then CMDF_OK
    else cmdf__do_help_loop entries argname (i + 1) fuel

/-- `cmdf__default_do_help` (libcmdf.h lines 668-705), modelled as the pair
(return code, whether the full command listing was printed): a non-NULL
arglist of count exactly 1 looks the named command up in the active frame's
range; any other non-NULL arglist reports `CMDF_ERROR_TOO_MANY_ARGS`; a NULL
arglist prints the full listing via `cmdf__print_command_list`. -/
def cmdf__default_do_help {α : Type} (entries : Nat → cmdf__entry α)
    (top : cmdf__settings α) (arglist : Option cmdf_arglist) : Int × Bool :=
  match arglist with
  | some al =>
    if al.count = 1 then
      (cmdf__do_help_loop entries (al.args.headD []) top.entry_start
        top.entry_count, false)
    else
      (CMDF_ERROR_TOO_MANY_ARGS, false)
  | none => (CMDF_OK, true)

/-- Index `k` of the flat entry table lies in the range of frame `st`. -/
def cmdf_in_range {α : Type} (st : cmdf__settings α) (k : Nat) : Prop :=
  st.entry_start ≤ k ∧ k < st.entry_start + st.entry_count

/-- The ranges of the stacked frames are contiguous in push order: each frame's
range starts exactly at the end of the range of the frame below it, and the
bottom frame's range starts at 0. -/
def cmdf_stack_contiguous {α : Type} : List (cmdf__settings α) → Prop
  | [] => True
  | [bot] => bot.entry_start = 0
  | child :: parent :: rest =>
    child.entry_start = parent.entry_start + parent.entry_count ∧
      cmdf_stack_contiguous (parent :: rest)

/-- Re-join a token list with single spaces (for the round-trip property). -/
def cmdf_join_tokens : List (List Char) → List Char
  | [] => []
  | [t] => t
  | t :: ts => t ++ ' ' :: cmdf_join_tokens ts

/-- Shape of a token produced in state `IN_WORD`: nonempty, fully
whitespace-free, and not starting with a double quote. -/
def cmdf_word_token (t : List Char) : Prop :=
  t ≠ [] ∧ (∀ c ∈ t, ¬ cmdf_isspace c) ∧ t.head? ≠ some '"'

/-- Every token the tokenizer emits is either an `IN_WORD`-shaped token or
(coming from a quoted segment) entirely quote-free. -/
def cmdf_token_shape (t : List Char) : Prop :=
  cmdf_word_token t ∨ '"' ∉ t

/-- Concrete data used to evaluate the theorems on closed inputs. -/
def sampleCallback : cmdf_callback := fun _ => CMDF_OK

def sampleEntry : cmdf__entry cmdf_callback :=
  ⟨"help".data, some "Help text".data, sampleCallback⟩

def sampleEntries : Nat → cmdf__entry cmdf_callback := fun _ => sampleEntry

def sampleSettings : cmdf__settings cmdf_callback :=
  ⟨cmdf__default_prompt, cmdf__default_intro, cmdf__default_doc_header,
    cmdf__default_undoc_header, '=', 0, 1, 1, 0, false, sampleCallback,
    sampleCallback⟩

def sampleEntryU : cmdf__entry Unit := ⟨[], none, ()⟩

def sampleSettingsU : cmdf__settings Unit :=
  ⟨[], [], [], [], '=', 0, 0, 0, 0, false, (), ()⟩

def sampleSettingsUFull : cmdf__settings Unit :=
  { sampleSettingsU with entry_count := CMDF_MAX_COMMANDS }

def sampleStateU : cmdf__state Unit := ⟨[sampleSettingsU], fun _ => sampleEntryU⟩

def sampleStateUMax : cmdf__state Unit :=
  ⟨[sampleSettingsUFull], fun _ => sampleEntryU⟩

def sampleStateU0 : cmdf__state Unit := ⟨[], fun _ => sampleEntryU⟩

def sampleStateUFull4 : cmdf__state Unit :=
  ⟨[sampleSettingsU, sampleSettingsU, sampleSettingsU, sampleSettingsU],
    fun _ => sampleEntryU⟩

lemma cmdf_run_nil (st : ParseState) (acc : List Char) :
    cmdf_run st acc [] = if st = ParseState.NONE then [] else [acc] := rfl

lemma cmdf_run_none_cons (acc : List Char) (c : Char) (rest : List Char) :
    cmdf_run ParseState.NONE acc (c :: rest) =
      if cmdf_isspace c then cmdf_run ParseState.NONE acc rest
      else if c = '"' then cmdf_run ParseState.IN_QUOTES [] rest
      else cmdf_run ParseState.IN_WORD [c] rest := rfl

lemma cmdf_run_quotes_cons (acc : List Char) (c : Char) (rest : List Char) :
    cmdf_run ParseState.IN_QUOTES acc (c :: rest) =
      if c = '"' then acc :: cmdf_run ParseState.NONE [] rest
      else cmdf_run ParseState.IN_QUOTES (acc ++ [c]) rest := rfl

lemma cmdf_run_word_cons (acc : List Char) (c : Char) (rest : List Char) :
    cmdf_run ParseState.IN_WORD acc (c :: rest) =
      if cmdf_isspace c then acc :: cmdf_run ParseState.NONE [] rest
      else cmdf_run ParseState.IN_WORD (acc ++ [c]) rest := rfl

/-- The count pass counts exactly the tokens the single-pass tokenizer emits. -/
lemma cmdf_run_length (cs : List Char) : ∀ (st : ParseState) (acc : List Char),
    (cmdf_run st acc cs).length = cmdf_count_pass st cs := by
  induction cs with
  | nil =>
    intro st acc
    cases st <;> simp [cmdf_run, cmdf_count_pass]
  | cons c rest ih =>
    intro st acc
    cases st <;>
      simp only [cmdf_run, cmdf_count_pass] <;>
      split_ifs <;>
      simp_all [cmdf_isspace, ih, Nat.add_comm]

/-- The fill pass, started with the count delivered by the count pass, produces
exactly the tokens of the single-pass tokenizer (in particular, the guard on
the final token never loses a token). -/
lemma cmdf_fill_pass_eq_run (cs : List Char) :
    ∀ (st : ParseState) (acc : List Char),
    cmdf_fill_pass st acc (cmdf_count_pass st cs) cs = cmdf_run st acc cs := by
  induction cs with
  | nil =>
    intro st acc
    cases st <;> simp [cmdf_fill_pass, cmdf_run, cmdf_count_pass]
  | cons c rest ih =>
    intro st acc
    cases st <;>
      simp only [cmdf_fill_pass, cmdf_run, cmdf_count_pass] <;>
      split_ifs <;>
      simp_all [cmdf_isspace, ih, Nat.add_sub_cancel_left, Nat.add_comm]

/-- `cmdf_tokens` agrees with the single-pass tokenizer. -/
lemma cmdf_tokens_eq_run (cs : List Char) :
    cmdf_tokens cs = cmdf_run ParseState.NONE [] cs := by
  simp [cmdf_tokens, cmdf_parse_arguments, cmdf_fill_pass_eq_run]

/-- In state `NONE` the pending accumulator is dead: it is reset before any
character is ever added to a token. -/
lemma cmdf_run_none_acc (cs : List Char) : ∀ (acc acc' : List Char),
    cmdf_run ParseState.NONE acc cs = cmdf_run ParseState.NONE acc' cs := by
  induction cs with
  | nil => intro acc acc'; rfl
  | cons c rest ih =>
    intro acc acc'
    rw [cmdf_run_none_cons, cmdf_run_none_cons]
    split_ifs with h1 h2 <;> first | exact ih acc acc' | rfl

/-- A quoted segment: from `IN_QUOTES`, quote-free content followed by a
closing quote emits the pending accumulator extended by the content, and
resumes in state `NONE`. -/
lemma cmdf_run_quotes_closed (content : List Char) :
    ∀ (acc rest : List Char), '"' ∉ content →
    cmdf_run ParseState.IN_QUOTES acc (content ++ '"' :: rest) =
      (acc ++ content) :: cmdf_run ParseState.NONE [] rest := by
  induction content with
  | nil => intro acc rest _; simp [cmdf_run_quotes_cons]
  | cons c content ih =>
    intro acc rest h
    have hc : ¬ c = '"' := fun hc => h (hc ▸ List.mem_cons_self c content)
    have h' : '"' ∉ content := fun hm => h (List.mem_cons_of_mem c hm)
    simp [cmdf_run_quotes_cons, hc, ih (acc ++ [c]) rest h']

/-- An unterminated quoted segment: end of input in `IN_QUOTES` emits the
accumulator extended by all remaining characters. -/
lemma cmdf_run_quotes_unterminated (content : List Char) :
    ∀ (acc : List Char), '"' ∉ content →
    cmdf_run ParseState.IN_QUOTES acc content = [acc ++ content] := by
  induction content with
  | nil => intro acc _; simp [cmdf_run_nil]
  | cons c content ih =>
    intro acc h
    have hc : ¬ c = '"' := fun hc => h (hc ▸ List.mem_cons_self c content)
    have h' : '"' ∉ content := fun hm => h (List.mem_cons_of_mem c hm)
    simp [cmdf_run_quotes_cons, hc, ih (acc ++ [c]) h']

/-- A line of only whitespace produces no tokens. -/
lemma cmdf_run_allspace (cs : List Char) (h : ∀ c ∈ cs, cmdf_isspace c) :
    ∀ (acc : List Char), cmdf_run ParseState.NONE acc cs = [] := by
  induction cs with
  | nil => intro acc; rfl
  | cons c rest ih =>
    intro acc
    have hc : cmdf_isspace c := h c (List.mem_cons_self c rest)
    rw [cmdf_run_none_cons]
    simp only [hc, if_true]
    exact ih (fun c hm => h c (List.mem_cons_of_mem _ hm)) acc

/-- In `IN_WORD`, whitespace-free input is consumed into the accumulator. -/
lemma cmdf_run_word_consume (t : List Char) :
    ∀ (acc rest : List Char), (∀ c ∈ t, ¬ cmdf_isspace c) →
    cmdf_run ParseState.IN_WORD acc (t ++ rest) =
      cmdf_run ParseState.IN_WORD (acc ++ t) rest := by
  induction t with
  | nil => intro acc rest _; simp
  | cons c t ih =>
    intro acc rest h
    have hc : ¬ cmdf_isspace c = true := h c (List.mem_cons_self c t)
    simp [cmdf_run_word_cons, hc, ih (acc ++ [c]) rest
      (fun c hm => h c (List.mem_cons_of_mem _ hm))]

/-- A word-shaped token followed by a space is scanned off as one token,
returning to state `NONE`. -/
lemma cmdf_run_word_mid (t rest : List Char) (h : cmdf_word_token t) :
    cmdf_run ParseState.NONE [] (t ++ ' ' :: rest) =
      t :: cmdf_run ParseState.NONE [] rest := by
  obtain ⟨hne, hsp, hq⟩ := h
  cases t with
  | nil => exact absurd rfl hne
  | cons c t =>
    have hc : ¬ cmdf_isspace c = true := hsp c (List.mem_cons_self c t)
    have hcq : ¬ c = '"' := fun hcq => hq (by simp [hcq])
    have ht : ∀ x ∈ t, ¬ cmdf_isspace x := fun x hx =>
      hsp x (List.mem_cons_of_mem _ hx)
    rw [List.cons_append, cmdf_run_none_cons]
    simp only [hc, if_false, hcq]
    rw [cmdf_run_word_consume t [c] (' ' :: rest) ht, cmdf_run_word_cons]
    simp [cmdf_isspace]

/-- A word-shaped token at end of input is emitted whole. -/
lemma cmdf_run_word_end (t : List Char) (h : cmdf_word_token t) :
    cmdf_run ParseState.NONE [] t = [t] := by
  obtain ⟨hne, hsp, hq⟩ := h
  cases t with
  | nil => exact absurd rfl hne
  | cons c t =>
    have hc : ¬ cmdf_isspace c = true := hsp c (List.mem_cons_self c t)
    have hcq : ¬ c = '"' := fun hcq => hq (by simp [hcq])
    have ht : ∀ x ∈ t, ¬ cmdf_isspace x := fun x hx =>
      hsp x (List.mem_cons_of_mem _ hx)
    have hcons := cmdf_run_word_consume t [c] [] ht
    rw [List.append_nil] at hcons
    rw [cmdf_run_none_cons]
    simp only [hc, if_false, hcq]
    rw [hcons, cmdf_run_nil]
    simp

/-- Over quote-free input the tokenizer never enters `IN_QUOTES`; up to a
separating space it emits only word-shaped tokens and lands in state `NONE`
with an empty accumulator. -/
lemma cmdf_run_quotefree_mid (s : List Char) :
    ∀ (st : ParseState) (acc rest : List Char), '"' ∉ s →
    st ≠ ParseState.IN_QUOTES →
    (st = ParseState.IN_WORD → cmdf_word_token acc) →
    ∃ ts, cmdf_run st acc (s ++ ' ' :: rest) =
        ts ++ cmdf_run ParseState.NONE [] rest ∧
      ∀ t ∈ ts, cmdf_word_token t := by
  induction s with
  | nil =>
    intro st acc rest _ hst hw
    cases st with
    | NONE =>
      refine ⟨[], ?_, by simp⟩
      rw [List.nil_append, cmdf_run_none_cons]
      simp [cmdf_isspace, cmdf_run_none_acc rest acc []]
    | IN_WORD =>
      refine ⟨[acc], ?_, by simpa using hw rfl⟩
      rw [List.nil_append, cmdf_run_word_cons]
      simp [cmdf_isspace]
    | IN_QUOTES => exact absurd rfl hst
  | cons c s ih =>
    intro st acc rest h hst hw
    have hcq : ¬ c = '"' := fun hcq => h (hcq ▸ List.mem_cons_self c s)
    have h' : '"' ∉ s := fun hm => h (List.mem_cons_of_mem c hm)
    cases st with
    | NONE =>
      rw [List.cons_append, cmdf_run_none_cons]
      by_cases hc : cmdf_isspace c = true
      · rw [if_pos hc]
        exact ih ParseState.NONE acc rest h' (fun hk => nomatch hk)
          (fun hk => nomatch hk)
      · rw [if_neg hc, if_neg hcq]
        refine ih ParseState.IN_WORD [c] rest h' (fun hk => nomatch hk) ?_
        intro _
        exact ⟨by simp, by simpa using hc, by simpa using hcq⟩
    | IN_WORD =>
      rw [List.cons_append, cmdf_run_word_cons]
      by_cases hc : cmdf_isspace c = true
      · rw [if_pos hc]
        obtain ⟨ts, heq, hts⟩ := ih ParseState.NONE [] rest h'
          (fun hk => nomatch hk) (fun hk => nomatch hk)
        refine ⟨acc :: ts, by simp [heq], ?_⟩
        intro t ht
        rcases List.mem_cons.mp ht with ht | ht
        · exact ht ▸ hw rfl
        · exact hts t ht
      · rw [if_neg hc]
        refine ih ParseState.IN_WORD (acc ++ [c]) rest h'
          (fun hk => nomatch hk) ?_
        intro _
        obtain ⟨hne, hsp, hq⟩ := hw rfl
        refine ⟨by simp, ?_, ?_⟩
        · intro x hx
          rcases List.mem_append.mp hx with hx | hx
          · exact hsp x hx
          · simp only [List.mem_singleton] at hx
            exact hx ▸ hc
        · cases acc with
          | nil => exact absurd rfl hne
          | cons a as => simpa using hq
    | IN_QUOTES => exact absurd rfl hst

/-- Over quote-free input ending the line, every emitted token is
word-shaped. -/
lemma cmdf_run_quotefree_end (s : List Char) :
    ∀ (st : ParseState) (acc : List Char), '"' ∉ s →
    st ≠ ParseState.IN_QUOTES →
    (st = ParseState.IN_WORD → cmdf_word_token acc) →
    ∀ t ∈ cmdf_run st acc s, cmdf_word_token t := by
  induction s with
  | nil =>
    intro st acc _ hst hw t ht
    cases st with
    | NONE => simp [cmdf_run_nil] at ht
    | IN_WORD =>
      rw [cmdf_run_nil] at ht
      exact (List.mem_singleton.mp ht) ▸ hw rfl
    | IN_QUOTES => exact absurd rfl hst
  | cons c s ih =>
    intro st acc h hst hw t ht
    have hcq : ¬ c = '"' := fun hcq => h (hcq ▸ List.mem_cons_self c s)
    have h' : '"' ∉ s := fun hm => h (List.mem_cons_of_mem c hm)
    cases st with
    | NONE =>
      rw [cmdf_run_none_cons] at ht
      by_cases hc : cmdf_isspace c = true
      · rw [if_pos hc] at ht
        exact ih ParseState.NONE acc h' (fun hk => nomatch hk)
          (fun hk => nomatch hk) t ht
      · rw [if_neg hc, if_neg hcq] at ht
        refine ih ParseState.IN_WORD [c] h' (fun hk => nomatch hk) ?_ t ht
        intro _
        exact ⟨by simp, by simpa using hc, by simpa using hcq⟩
    | IN_WORD =>
      rw [cmdf_run_word_cons] at ht
      by_cases hc : cmdf_isspace c = true
      · rw [if_pos hc] at ht
        rcases List.mem_cons.mp ht with ht | ht
        · exact ht ▸ hw rfl
        · exact ih ParseState.NONE [] h' (fun hk => nomatch hk)
            (fun hk => nomatch hk) t ht
      · rw [if_neg hc] at ht
        refine ih ParseState.IN_WORD (acc ++ [c]) h' (fun hk => nomatch hk)
          ?_ t ht
        intro _
        obtain ⟨hne, hsp, hq⟩ := hw rfl
        refine ⟨by simp, ?_, ?_⟩
        · intro x hx
          rcases List.mem_append.mp hx with hx | hx
          · exact hsp x hx
          · simp only [List.mem_singleton] at hx
            exact hx ▸ hc
        · cases acc with
          | nil => exact absurd rfl hne
          | cons a as => simpa using hq
    | IN_QUOTES => exact absurd rfl hst

/-- Every token the tokenizer emits (from a well-formed configuration) is
either word-shaped or quote-free. -/
lemma cmdf_run_token_shape (cs : List Char) :
    ∀ (st : ParseState) (acc : List Char),
    (st = ParseState.IN_WORD → cmdf_word_token acc) →
    (st = ParseState.IN_QUOTES → '"' ∉ acc) →
    ∀ t ∈ cmdf_run st acc cs, cmdf_token_shape t := by
  induction cs with
  | nil =>
    intro st acc hw hqf t ht
    cases st with
    | NONE => simp [cmdf_run_nil] at ht
    | IN_WORD =>
      rw [cmdf_run_nil] at ht
      exact Or.inl ((List.mem_singleton.mp ht) ▸ hw rfl)
    | IN_QUOTES =>
      rw [cmdf_run_nil] at ht
      exact Or.inr ((List.mem_singleton.mp ht) ▸ hqf rfl)
  | cons c rest ih =>
    intro st acc hw hqf t ht
    cases st with
    | NONE =>
      rw [cmdf_run_none_cons] at ht
      by_cases hc : cmdf_isspace c = true
      · rw [if_pos hc] at ht
        exact ih ParseState.NONE acc (fun hk => nomatch hk)
          (fun hk => nomatch hk) t ht
      · rw [if_neg hc] at ht
        by_cases hq : c = '"'
        · rw [if_pos hq] at ht
          exact ih ParseState.IN_QUOTES [] (fun hk => nomatch hk)
            (fun _ => by simp) t ht
        · rw [if_neg hq] at ht
          refine ih ParseState.IN_WORD [c] ?_ (fun hk => nomatch hk) t ht
          intro _
          exact ⟨by simp, by simpa using hc, by simpa using hq⟩
    | IN_QUOTES =>
      rw [cmdf_run_quotes_cons] at ht
      by_cases hq : c = '"'
      · rw [if_pos hq] at ht
        rcases List.mem_cons.mp ht with ht | ht
        · exact Or.inr (ht ▸ hqf rfl)
        · exact ih ParseState.NONE [] (fun hk => nomatch hk)
            (fun hk => nomatch hk) t ht
      · rw [if_neg hq] at ht
        refine ih ParseState.IN_QUOTES (acc ++ [c]) (fun hk => nomatch hk)
          ?_ t ht
        intro _
        intro hm
        rcases List.mem_append.mp hm with hm | hm
        · exact hqf rfl hm
        · simp only [List.mem_singleton] at hm
          exact hq hm.symm
    | IN_WORD =>
      rw [cmdf_run_word_cons] at ht
      by_cases hc : cmdf_isspace c = true
      · rw [if_pos hc] at ht
        rcases List.mem_cons.mp ht with ht | ht
        · exact Or.inl (ht ▸ hw rfl)
        · exact ih ParseState.NONE [] (fun hk => nomatch hk)
            (fun hk => nomatch hk) t ht
      · rw [if_neg hc] at ht
        refine ih ParseState.IN_WORD (acc ++ [c]) ?_
          (fun hk => nomatch hk) t ht
        intro _
        obtain ⟨hne, hsp, hq⟩ := hw rfl
        refine ⟨by simp, ?_, ?_⟩
        · intro x hx
          rcases List.mem_append.mp hx with hx | hx
          · exact hsp x hx
          · simp only [List.mem_singleton] at hx
            exact hx ▸ hc
        · cases acc with
          | nil => exact absurd rfl hne
          | cons a as => simpa using hq

/-- Tokenizing the space-join of shaped tokens yields only word-shaped
tokens. -/
lemma cmdf_run_join_word (ts : List (List Char)) :
    (∀ t ∈ ts, cmdf_token_shape t) →
    ∀ u ∈ cmdf_run ParseState.NONE [] (cmdf_join_tokens ts),
      cmdf_word_token u := by
  induction ts with
  | nil => intro _ u hu; simp [cmdf_join_tokens, cmdf_run_nil] at hu
  | cons t ts ih =>
    intro h u hu
    cases ts with
    | nil =>
      rcases h t (List.mem_cons_self t []) with hword | hqf
      · rw [show cmdf_join_tokens [t] = t from rfl,
          cmdf_run_word_end t hword] at hu
        simp only [List.mem_singleton] at hu
        exact hu ▸ hword
      · exact cmdf_run_quotefree_end t ParseState.NONE [] hqf
          (fun hk => nomatch hk) (fun hk => nomatch hk) u hu
    | cons t2 ts2 =>
      have hjoin : cmdf_join_tokens (t :: t2 :: ts2) =
          t ++ ' ' :: cmdf_join_tokens (t2 :: ts2) := rfl
      have hrest : ∀ x ∈ t2 :: ts2, cmdf_token_shape x :=
        fun x hx => h x (List.mem_cons_of_mem t hx)
      rcases h t (List.mem_cons_self t (t2 :: ts2)) with hword | hqf
      · rw [hjoin, cmdf_run_word_mid t _ hword] at hu
        rcases List.mem_cons.mp hu with hu | hu
        · exact hu ▸ hword
        · exact ih hrest u hu
      · obtain ⟨us, heq, hus⟩ := cmdf_run_quotefree_mid t ParseState.NONE []
          (cmdf_join_tokens (t2 :: ts2)) hqf (fun hk => nomatch hk)
          (fun hk => nomatch hk)
        rw [hjoin, heq] at hu
        rcases List.mem_append.mp hu with hu | hu
        · exact hus u hu
        · exact ih hrest u hu

/-- Tokenizing the space-join of word-shaped tokens gives back exactly those
tokens. -/
lemma cmdf_run_join_eq (ts : List (List Char)) :
    (∀ t ∈ ts, cmdf_word_token t) →
    cmdf_run ParseState.NONE [] (cmdf_join_tokens ts) = ts := by
  induction ts with
  | nil => intro _; rfl
  | cons t ts ih =>
    intro h
    cases ts with
    | nil =>
      exact cmdf_run_word_end t (h t (List.mem_cons_self t []))
    | cons t2 ts2 =>
      have hjoin : cmdf_join_tokens (t :: t2 :: ts2) =
          t ++ ' ' :: cmdf_join_tokens (t2 :: ts2) := rfl
      rw [hjoin, cmdf_run_word_mid t _ (h t (List.mem_cons_self t (t2 :: ts2))),
        ih (fun x hx => h x (List.mem_cons_of_mem t hx))]

/-- The scan loop of `cmdf__default_do_command` computes the first-match
semantics of `List.find?` over the scanned index range. -/
lemma cmdf__do_command_loop_eq (entries : Nat → cmdf__entry cmdf_callback)
    (cmdname : List Char) (arglist : Option cmdf_arglist) :
    ∀ (count i : Nat),
    cmdf__do_command_loop entries cmdname arglist i count =
      match ((List.range' i count).map entries).find?
          (fun e => e.cmdname = cmdname) with
      | some e => e.callback arglist
      | none => CMDF_ERROR_UNKNOWN_COMMAND := by
  intro count
  induction count with
  | zero => intro i; simp [cmdf__do_command_loop, List.range']
  | succ n ih =>
    intro i
    rw [List.range'_succ i n 1, List.map_cons]
    by_cases h : (entries i).cmdname = cmdname
    · rw [List.find?_cons_of_pos _ (by simpa using h)]
      simp [cmdf__do_command_loop, h]
    · rw [List.find?_cons_of_neg _ (by simpa using h)]
      simp only [cmdf__do_command_loop, if_neg h]
      exact ih (i + 1)

/-- Every name collected by a `cmdf__print_command_list` pass is the name of
an entry in the scanned index range. -/
lemma cmdf__print_list_loop_mem {α : Type} (entries : Nat → cmdf__entry α)
    (p : Option (List Char) → Bool) :
    ∀ (count i : Nat) (name : List Char),
    name ∈ cmdf__print_list_loop entries p i count →
    name ∈ (List.range' i count).map (fun k => (entries k).cmdname) := by
  intro count
  induction count with
  | zero => intro i name h; simp [cmdf__print_list_loop] at h
  | succ n ih =>
    intro i name h
    rw [List.range'_succ i n 1]
    simp only [cmdf__print_list_loop] at h
    rcases List.mem_append.mp h with h | h
    · by_cases hp : p (entries i).help
      · rw [if_pos hp] at h
        simp only [List.mem_singleton] at h
        simp [h]
      · rw [if_neg hp] at h
        simp at h
    · simp only [List.map_cons, List.mem_cons]
      exact Or.inr (ih (i + 1) name h)

lemma cmdf_stack_contiguous_nil {α : Type} :
    cmdf_stack_contiguous ([] : List (cmdf__settings α)) := trivial

lemma cmdf_stack_contiguous_one {α : Type} (s : cmdf__settings α) :
    cmdf_stack_contiguous [s] ↔ s.entry_start = 0 := Iff.rfl

lemma cmdf_stack_contiguous_cons {α : Type} (c p : cmdf__settings α)
    (rest : List (cmdf__settings α)) :
    cmdf_stack_contiguous (c :: p :: rest) ↔
      c.entry_start = p.entry_start + p.entry_count ∧
        cmdf_stack_contiguous (p :: rest) := Iff.rfl

lemma cmdf_stack_contiguous_tail {α : Type} (a : cmdf__settings α)
    (l : List (cmdf__settings α)) (h : cmdf_stack_contiguous (a :: l)) :
    cmdf_stack_contiguous l := by
  cases l with
  | nil => trivial
  | cons p rest => exact ((cmdf_stack_contiguous_cons a p rest).mp h).2

/-- Below a frame of a contiguous stack, every frame's range ends at or before
the upper frame's range start. -/
lemma cmdf_stack_contiguous_le {α : Type} :
    ∀ (l : List (cmdf__settings α)) (a : cmdf__settings α),
    cmdf_stack_contiguous (a :: l) →
    ∀ b ∈ l, b.entry_start + b.entry_count ≤ a.entry_start := by
  intro l
  induction l with
  | nil => intro a _ b hb; simp at hb
  | cons p rest ih =>
    intro a h b hb
    obtain ⟨h1, h2⟩ := (cmdf_stack_contiguous_cons a p rest).mp h
    rcases List.mem_cons.mp hb with hb | hb
    · exact hb ▸ h1.ge
    · calc b.entry_start + b.entry_count ≤ p.entry_start := ih p h2 b hb
        _ ≤ p.entry_start + p.entry_count := Nat.le_add_right _ _
        _ = a.entry_start := h1.symm

/-- A contiguous stack has pairwise disjoint ranges. -/
lemma cmdf_stack_contiguous_disjoint {α : Type}
    (l : List (cmdf__settings α)) (h : cmdf_stack_contiguous l) :
    List.Pairwise
      (fun a b => ∀ k, cmdf_in_range a k → ¬ cmdf_in_range b k) l := by
  induction l with
  | nil => exact List.Pairwise.nil
  | cons a rest ih =>
    refine List.Pairwise.cons ?_ (ih (cmdf_stack_contiguous_tail a rest h))
    intro b hb k hka hkb
    have hle := cmdf_stack_contiguous_le rest a h b hb
    exact absurd (lt_of_lt_of_le hkb.2 (hle.trans hka.1)) (lt_irrefl k)

/-- `cmdf_register_command` preserves stack contiguity: it only ever changes
the top frame's `entry_count`, which no contiguity equation reads. -/
lemma cmdf_register_preserves_contiguous {α : Type} (s : cmdf__state α)
    (cb : α) (name : List Char) (help : Option (List Char))
    (h : cmdf_stack_contiguous s.stack) :
    cmdf_stack_contiguous (cmdf_register_command s cb name help).2.stack := by
  unfold cmdf_register_command
  cases hs : s.stack with
  | nil => simpa [hs] using h
  | cons top rest =>
    rw [hs] at h
    by_cases hc : top.entry_count = CMDF_MAX_COMMANDS
    · simpa [hc, hs] using h
    · simp only [hc, if_false]
      cases rest with
      | nil => exact h
      | cons p r2 =>
        obtain ⟨h1, h2⟩ := (cmdf_stack_contiguous_cons top p r2).mp h
        exact (cmdf_stack_contiguous_cons _ p r2).mpr ⟨h1, h2⟩

/-- `cmdf_register_command` never changes the stack depth. -/
lemma cmdf_register_stack_length {α : Type} (s : cmdf__state α) (cb : α)
    (name : List Char) (help : Option (List Char)) :
    (cmdf_register_command s cb name help).2.stack.length = s.stack.length := by
  unfold cmdf_register_command
  cases hs : s.stack with
  | nil => simp [hs]
  | cons top rest =>
    by_cases hc : top.entry_count = CMDF_MAX_COMMANDS
    · simp [hc, hs]
    · simp [hc]

/-- A successful `cmdf_init` grows the stack by exactly one frame. -/
lemma cmdf_init_stack_length {α : Type} (s : cmdf__state α)
    (prompt intro_ doc_header undoc_header : Option (List Char))
    (ruler : Option Char) (use_default_exit : Bool)
    (help_cb exit_cb do_command_cb do_emptyline_cb : α)
    (s' : cmdf__state α)
    (h : cmdf_init s prompt intro_ doc_header undoc_header ruler
      use_default_exit help_cb exit_cb do_command_cb do_emptyline_cb = some s') :
    s'.stack.length = s.stack.length + 1 := by
  unfold cmdf_init at h
  by_cases hlen : s.stack.length < CMDF_MAX_SUBPROCESSES
  · rw [if_pos hlen] at h
    by_cases hexit : use_default_exit = true
    · rw [if_pos hexit] at h
      have h' := Option.some_inj.mp h
      rw [← h', cmdf_register_stack_length, cmdf_register_stack_length]
      simp
    · rw [if_neg hexit] at h
      have h' := Option.some_inj.mp h
      rw [← h', cmdf_register_stack_length]
      simp
  · rw [if_neg hlen] at h
    exact absurd h (by simp)

/-- A successful `cmdf_init` preserves stack contiguity: the pushed frame's
range starts exactly at the end of the previous top frame's range. -/
lemma cmdf_init_preserves_contiguous {α : Type} (s : cmdf__state α)
    (prompt intro_ doc_header undoc_header : Option (List Char))
    (ruler : Option Char) (use_default_exit : Bool)
    (help_cb exit_cb do_command_cb do_emptyline_cb : α)
    (s' : cmdf__state α)
    (hs : cmdf_stack_contiguous s.stack)
    (h : cmdf_init s prompt intro_ doc_header undoc_header ruler
      use_default_exit help_cb exit_cb do_command_cb do_emptyline_cb = some s') :
    cmdf_stack_contiguous s'.stack := by
  unfold cmdf_init at h
  by_cases hlen : s.stack.length < CMDF_MAX_SUBPROCESSES
  · rw [if_pos hlen] at h
    have hpush : cmdf_stack_contiguous
        (cmdf_init_settings s prompt intro_ doc_header undoc_header ruler
          do_command_cb do_emptyline_cb :: s.stack) := by
      cases hstk : s.stack with
      | nil =>
        rw [cmdf_stack_contiguous_one]
        simp [cmdf_init_settings, hstk]
      | cons top rest =>
        rw [hstk] at hs
        refine (cmdf_stack_contiguous_cons _ top rest).mpr ⟨?_, hs⟩
        simp [cmdf_init_settings, hstk]
    by_cases hexit : use_default_exit = true
    · rw [if_pos hexit] at h
      rw [← Option.some_inj.mp h]
      exact cmdf_register_preserves_contiguous _ _ _ _
        (cmdf_register_preserves_contiguous _ _ _ _ hpush)
    · rw [if_neg hexit] at h
      rw [← Option.some_inj.mp h]
      exact cmdf_register_preserves_contiguous _ _ _ _ hpush
  · rw [if_neg hlen] at h
    exact absurd h (by simp)

/-- Claim C1, counterexample: on the five-character line `a"b"c`,
`cmdf_parse_arguments` does NOT yield two tokens.  Under the state-machine
transition rules a `"` read in state `IN_WORD` is an ordinary word character,
so the word opened by `a` never ends before end of input. -/
theorem claim_C1_counterexample :
    ¬ ((cmdf_tokens "a\"b\"c".data).length = 2 ∧
      (cmdf_parse_arguments (some "a\"b\"c".data)).map cmdf_arglist.count =
        some 2) := by
  decide

/-- Claim C1, amended: for the input line `a"b"c` the tokenizer yields exactly
one token, the whole five-character line with both quote characters kept —
the split determined by the documented transition rules, in which a
double-quote read in state `IN_WORD` is an ordinary word character. -/
theorem claim_C1_amended :
    cmdf_tokens "a\"b\"c".data = ["a\"b\"c".data] ∧
      (cmdf_parse_arguments (some "a\"b\"c".data)).map cmdf_arglist.count =
        some 1 := by
  decide

/-- Claim C4: a token begun by a double-quote read in state `NONE` consists of
exactly the characters strictly between that quote and the next double-quote
(whitespace kept verbatim, neither quote part of the token); with no closing
quote it consists of all remaining characters, with no error; in particular
`"a b" c` tokenizes to `["a b", "c"]`. -/
theorem claim_C4_quoted_tokens (content rest : List Char) (h : '"' ∉ content) :
    cmdf_tokens ('"' :: (content ++ '"' :: rest)) =
        content :: cmdf_tokens rest ∧
      cmdf_tokens ('"' :: content) = [content] ∧
      cmdf_tokens "\"a b\" c".data = ["a b".data, "c".data] := by
  refine ⟨?_, ?_, by decide⟩
  · rw [cmdf_tokens_eq_run, cmdf_tokens_eq_run, cmdf_run_none_cons]
    rw [if_neg (by decide : ¬ cmdf_isspace '"' = true), if_pos rfl]
    simpa using cmdf_run_quotes_closed content [] rest h
  · rw [cmdf_tokens_eq_run, cmdf_run_none_cons]
    rw [if_neg (by decide : ¬ cmdf_isspace '"' = true), if_pos rfl]
    simpa using cmdf_run_quotes_unterminated content [] h

/-- Witness for claim C4 at the concrete quoted content `a b`. -/
theorem claim_C4_quoted_tokens_witness :
    cmdf_tokens ('"' :: "a b".data) = ["a b".data] :=
  (claim_C4_quoted_tokens "a b".data [] (by decide)).2.1

/-- Claim C6: the claim is right and the code is wrong.  `cmdf_free_arglist`
is documented to free every argument, but its loop bound is
`i < arglist->count - 1` in `size_t` arithmetic: with `count = 1` it frees no
argument string at all (index 0 < count is skipped, leaking `args[0]`), and
with `count = 0` the bound wraps to `2^64 - 1`, so the loop reads (and frees)
`args[i]` at indices far beyond `count`. -/
theorem claim_C6_free_loop_bound :
    ¬ cmdf_free_arglist_frees 1 0 ∧ cmdf_free_arglist_frees 0 5 := by
  constructor
  · show ¬ (0 < (1 + (SIZE_T_MOD - 1)) % SIZE_T_MOD)
    norm_num [SIZE_T_MOD]
  · show 5 < (0 + (SIZE_T_MOD - 1)) % SIZE_T_MOD
    norm_num [SIZE_T_MOD]

/-- Claim C7: re-joining the tokens of a line with single spaces and
re-tokenizing is idempotent on token content. -/
theorem claim_C7_join_idempotent (cs : List Char) :
    cmdf_tokens (cmdf_join_tokens (cmdf_tokens (cmdf_join_tokens
        (cmdf_tokens cs)))) =
      cmdf_tokens (cmdf_join_tokens (cmdf_tokens cs)) := by
  simp only [cmdf_tokens_eq_run]
  exact cmdf_run_join_eq _ (cmdf_run_join_word _
    (cmdf_run_token_shape cs ParseState.NONE [] (fun hk => nomatch hk)
      (fun hk => nomatch hk)))

/-- Claim C8: `cmdf_parse_arguments` returns `NULL` exactly on a `NULL` input
line; the empty line and a line of only whitespace are not `NULL` and each
yields an arglist of count 0 (with an empty argument vector). -/
theorem claim_C8_absent_and_empty :
    cmdf_parse_arguments none = none ∧
      (∀ cs, cmdf_parse_arguments (some cs) ≠ none) ∧
      (∀ cs, (∀ c ∈ cs, cmdf_isspace c) →
        cmdf_parse_arguments (some cs) = some ⟨[], 0⟩) := by
  refine ⟨rfl, fun cs => by simp [cmdf_parse_arguments], fun cs h => ?_⟩
  have hrun := cmdf_run_allspace cs h []
  have hcount : cmdf_count_pass ParseState.NONE cs = 0 := by
    rw [← cmdf_run_length cs ParseState.NONE [], hrun]
    rfl
  have hunfold : cmdf_parse_arguments (some cs) =
      some { args := cmdf_fill_pass ParseState.NONE [] (cmdf_count_pass ParseState.NONE cs) cs, count := cmdf_count_pass ParseState.NONE cs } := rfl
  rw [hunfold, cmdf_fill_pass_eq_run, hrun, hcount]

/-- Witness for claim C8 at the empty line and the three-space line. -/
theorem claim_C8_absent_and_empty_witness :
    cmdf_parse_arguments (some "   ".data) = some ⟨[], 0⟩ ∧
      cmdf_parse_arguments (some "".data) = some ⟨[], 0⟩ ∧
      cmdf_parse_arguments none = none :=
  ⟨claim_C8_absent_and_empty.2.2 "   ".data (by decide),
    claim_C8_absent_and_empty.2.2 "".data (by decide),
    claim_C8_absent_and_empty.1⟩

/-- Claim C2: command resolution scans only the active context's range
`[entry_start, entry_start + entry_count)` in index order, invokes the first
entry whose name equals the command name and returns that handler's result,
returning `CMDF_ERROR_UNKNOWN_COMMAND` when no entry in the range matches;
and the help listing lists only names of entries of the active context's
range. -/
theorem claim_C2_resolve_scoped (entries : Nat → cmdf__entry cmdf_callback)
    (top : cmdf__settings cmdf_callback) (cmdname : List Char)
    (arglist : Option cmdf_arglist) :
    (cmdf__default_do_command entries top cmdname arglist =
      match spec_resolve entries top cmdname with
      | some e => e.callback arglist
      | none => CMDF_ERROR_UNKNOWN_COMMAND) ∧
    (∀ name, (name ∈ (cmdf__print_command_list entries top).1 ∨
        name ∈ (cmdf__print_command_list entries top).2) →
      name ∈ (List.range' top.entry_start top.entry_count).map
        (fun k => (entries k).cmdname)) := by
  constructor
  · exact cmdf__do_command_loop_eq entries cmdname arglist top.entry_count
      top.entry_start
  · intro name hmem
    rcases hmem with hmem | hmem
    · exact cmdf__print_list_loop_mem entries Option.isSome top.entry_count
        top.entry_start name hmem
    · have h2 : (cmdf__print_command_list entries top).2 =
          if 0 < top.undoc_cmds then
            cmdf__print_list_loop entries Option.isNone top.entry_start
              top.entry_count
          else [] := rfl
      rw [h2] at hmem
      by_cases hu : 0 < top.undoc_cmds
      · rw [if_pos hu] at hmem
        exact cmdf__print_list_loop_mem entries Option.isNone top.entry_count
          top.entry_start name hmem
      · rw [if_neg hu] at hmem
        simp at hmem

/-- Witness for claim C2 on a one-command table. -/
theorem claim_C2_resolve_scoped_witness :
    cmdf__default_do_command sampleEntries sampleSettings "help".data none =
        CMDF_OK ∧
      "help".data ∈ (List.range' sampleSettings.entry_start
          sampleSettings.entry_count).map
        (fun k => (sampleEntries k).cmdname) := by
  have h := claim_C2_resolve_scoped sampleEntries sampleSettings "help".data
    none
  constructor
  · rw [h.1]; rfl
  · refine h.2 "help".data (Or.inl ?_)
    show "help".data ∈
      cmdf__print_list_loop sampleEntries Option.isSome
        sampleSettings.entry_start sampleSettings.entry_count
    simp [cmdf__print_list_loop, sampleEntries, sampleEntry, sampleSettings]

/-- Claim C3: a frame pushed by `cmdf_init` has `entry_count = 0` and
`entry_start` equal to `parent.entry_start + parent.entry_count` (`0` with no
parent); stack contiguity is preserved by every push (`cmdf_init`) and every
registration (`cmdf_register_command`); and contiguous ranges are pairwise
disjoint. -/
theorem claim_C3_push_ranges (α : Type) :
    (∀ (s : cmdf__state α)
        (prompt intro_ doc_header undoc_header : Option (List Char))
        (ruler : Option Char) (dcb deb : α),
      (cmdf_init_settings s prompt intro_ doc_header undoc_header ruler dcb
          deb).entry_count = 0 ∧
      (cmdf_init_settings s prompt intro_ doc_header undoc_header ruler dcb
          deb).entry_start =
        (match s.stack with
         | [] => 0
         | top :: _ => top.entry_start + top.entry_count)) ∧
    (∀ (s : cmdf__state α)
        (prompt intro_ doc_header undoc_header : Option (List Char))
        (ruler : Option Char) (ude : Bool) (hcb ecb dcb deb : α)
        (s' : cmdf__state α),
      cmdf_stack_contiguous s.stack →
      cmdf_init s prompt intro_ doc_header undoc_header ruler ude hcb ecb dcb
          deb = some s' →
      cmdf_stack_contiguous s'.stack) ∧
    (∀ (s : cmdf__state α) (cb : α) (name : List Char)
        (help : Option (List Char)),
      cmdf_stack_contiguous s.stack →
      cmdf_stack_contiguous (cmdf_register_command s cb name help).2.stack) ∧
    (∀ l : List (cmdf__settings α), cmdf_stack_contiguous l →
      List.Pairwise (fun a b => ∀ k, cmdf_in_range a k → ¬ cmdf_in_range b k)
        l) := by
  refine ⟨?_, ?_, ?_, ?_⟩
  · intro s prompt intro_ dh uh r dcb deb
    exact ⟨rfl, rfl⟩
  · intro s prompt intro_ dh uh r ude hcb ecb dcb deb s' hs h
    exact cmdf_init_preserves_contiguous s prompt intro_ dh uh r ude hcb ecb
      dcb deb s' hs h
  · exact fun s cb name help hs =>
      cmdf_register_preserves_contiguous s cb name help hs
  · exact fun l h => cmdf_stack_contiguous_disjoint l h

/-- Witness for claim C3 at concrete stacks. -/
theorem claim_C3_push_ranges_witness :
    (cmdf_init_settings sampleStateU0 none none none none none ()
        ()).entry_count = 0 ∧
      (cmdf_init_settings sampleStateU0 none none none none none ()
          ()).entry_start = 0 ∧
      cmdf_stack_contiguous
        (cmdf_register_command sampleStateU () [] none).2.stack ∧
      (∃ s', cmdf_init sampleStateU0 none none none none none true () () () ()
          = some s' ∧ cmdf_stack_contiguous s'.stack) ∧
      List.Pairwise (fun a b => ∀ k, cmdf_in_range a k → ¬ cmdf_in_range b k)
        [sampleSettingsU] := by
  have h := claim_C3_push_ranges Unit
  refine ⟨(h.1 sampleStateU0 none none none none none () ()).1,
    (h.1 sampleStateU0 none none none none none () ()).2, ?_, ?_, ?_⟩
  · exact h.2.2.1 sampleStateU () [] none rfl
  · exact ⟨_, rfl,
      h.2.1 sampleStateU0 none none none none none true () () () () _
        trivial rfl⟩
  · exact h.2.2.2 [sampleSettingsU] rfl

/-- Claim C5: at the per-session maximum, a further `cmdf_register_command`
returns `CMDF_ERROR_TOO_MANY_COMMANDS` leaving the whole state (table, range,
counters) unchanged; below it, the call returns `CMDF_OK`, appends the entry
at `entry_start + entry_count`, grows the count by one with the range start
unchanged, touches no other table index, leaves the rest of the stack
unchanged, and (ranges being contiguous) writes inside no other live
session's range. -/
theorem claim_C5_register_bounds (α : Type) (s : cmdf__state α) (cb : α)
    (name : List Char) (help : Option (List Char))
    (top : cmdf__settings α) (rest : List (cmdf__settings α))
    (hs : s.stack = top :: rest) :
    (top.entry_count = CMDF_MAX_COMMANDS →
      cmdf_register_command s cb name help =
        (CMDF_ERROR_TOO_MANY_COMMANDS, s)) ∧
    (top.entry_count < CMDF_MAX_COMMANDS →
      (cmdf_register_command s cb name help).1 = CMDF_OK ∧
      (cmdf_register_command s cb name help).2.entries
          (top.entry_start + top.entry_count) =
        { cmdname := name, help := help, callback := cb } ∧
      (∀ i, i ≠ top.entry_start + top.entry_count →
        (cmdf_register_command s cb name help).2.entries i = s.entries i) ∧
      (∃ top', (cmdf_register_command s cb name help).2.stack = top' :: rest ∧
        top'.entry_start = top.entry_start ∧
        top'.entry_count = top.entry_count + 1) ∧
      (cmdf_stack_contiguous s.stack →
        ∀ b ∈ rest, ∀ i, cmdf_in_range b i →
          (cmdf_register_command s cb name help).2.entries i =
            s.entries i)) := by
  constructor
  · intro hc
    unfold cmdf_register_command
    rw [hs]
    simp [hc]
  · intro hc
    have hcne : ¬ top.entry_count = CMDF_MAX_COMMANDS := Nat.ne_of_lt hc
    unfold cmdf_register_command
    rw [hs]
    simp only [hcne, if_false]
    refine ⟨by trivial, by simp, ?_, ⟨_, rfl, rfl, rfl⟩, ?_⟩
    · intro i hi
      simp [hi]
    · intro hcont b hb i hbi
      have hle := cmdf_stack_contiguous_le rest top (hs ▸ hcont) b hb
      have hlt : i < top.entry_start + top.entry_count :=
        lt_of_lt_of_le hbi.2 (le_trans hle (Nat.le_add_right _ _))
      simp [Nat.ne_of_lt hlt]

/-- Witness for claim C5 at a full frame (24 commands) and an empty frame. -/
theorem claim_C5_register_bounds_witness :
    cmdf_register_command sampleStateUMax () [] none =
        (CMDF_ERROR_TOO_MANY_COMMANDS, sampleStateUMax) ∧
      (cmdf_register_command sampleStateU () [] none).1 = CMDF_OK := by
  have h1 := claim_C5_register_bounds Unit sampleStateUMax () [] none
    sampleSettingsUFull [] rfl
  have h2 := claim_C5_register_bounds Unit sampleStateU () [] none
    sampleSettingsU [] rfl
  exact ⟨h1.1 rfl, (h2.2 (by decide)).1⟩

/-- Claim C9: with the stack already holding `CMDF_MAX_SUBPROCESSES`
frames, `cmdf_init` takes the fatal path (modelled as `none`, the C code
calls `exit`) and pushes nothing; a successful `cmdf_init` can only start from
a stack strictly below capacity, so the stack never exceeds its capacity. -/
theorem claim_C9_stack_capacity (α : Type) :
    (∀ (s : cmdf__state α)
        (prompt intro_ doc_header undoc_header : Option (List Char))
        (ruler : Option Char) (ude : Bool) (hcb ecb dcb deb : α),
      s.stack.length = CMDF_MAX_SUBPROCESSES →
      cmdf_init s prompt intro_ doc_header undoc_header ruler ude hcb ecb dcb
        deb = none) ∧
    (∀ (s : cmdf__state α)
        (prompt intro_ doc_header undoc_header : Option (List Char))
        (ruler : Option Char) (ude : Bool) (hcb ecb dcb deb : α)
        (s' : cmdf__state α),
      cmdf_init s prompt intro_ doc_header undoc_header ruler ude hcb ecb dcb
          deb = some s' →
      s.stack.length < CMDF_MAX_SUBPROCESSES ∧
      s'.stack.length ≤ CMDF_MAX_SUBPROCESSES) := by
  constructor
  · intro s prompt intro_ dh uh r ude hcb ecb dcb deb hlen
    unfold cmdf_init
    rw [if_neg (by rw [hlen]; exact lt_irrefl _)]
  · intro s prompt intro_ dh uh r ude hcb ecb dcb deb s' h
    have hlt : s.stack.length < CMDF_MAX_SUBPROCESSES := by
      by_contra hlt
      unfold cmdf_init at h
      rw [if_neg hlt] at h
      exact Option.noConfusion h
    have hlen := cmdf_init_stack_length s prompt intro_ dh uh r ude hcb ecb
      dcb deb s' h
    exact ⟨hlt, by omega⟩

/-- Witness for claim C9 at a stack of 4 frames (capacity) and the empty
stack. -/
theorem claim_C9_stack_capacity_witness :
    cmdf_init sampleStateUFull4 none none none none none false () () () () =
        none ∧
      (∃ s', cmdf_init sampleStateU0 none none none none none false () () () ()
          = some s' ∧ s'.stack.length ≤ CMDF_MAX_SUBPROCESSES) := by
  have h := claim_C9_stack_capacity Unit
  refine ⟨h.1 sampleStateUFull4 none none none none none false () () () () rfl,
    ⟨_, rfl, ?_⟩⟩
  exact (h.2 sampleStateU0 none none none none none false () () () () _ rfl).2

/-- Claim C10: the built-in help handler, given a non-NULL arglist whose count
is not exactly 1 (including count 0), reports `CMDF_ERROR_TOO_MANY_ARGS` and
does not print the listing; the full command listing is printed exactly when
the arglist is NULL. -/
theorem claim_C10_help_args (α : Type) (entries : Nat → cmdf__entry α)
    (top : cmdf__settings α) :
    (∀ al : cmdf_arglist, al.count ≠ 1 →
      cmdf__default_do_help entries top (some al) =
        (CMDF_ERROR_TOO_MANY_ARGS, false)) ∧
    (∀ arglist : Option cmdf_arglist,
      (cmdf__default_do_help entries top arglist).2 = true ↔
        arglist = none) := by
  constructor
  · intro al hcount
    simp only [cmdf__default_do_help]
    rw [if_neg hcount]
  · intro arglist
    cases arglist with
    | none => simp [cmdf__default_do_help]
    | some al =>
      simp only [cmdf__default_do_help]
      by_cases hc : al.count = 1
      · rw [if_pos hc]
        simp
      · rw [if_neg hc]
        simp

/-- Witness for claim C10 at an arglist of count 0 and at a NULL arglist. -/
theorem claim_C10_help_args_witness :
    cmdf__default_do_help (fun _ => sampleEntryU) sampleSettingsU
        (some { args := [], count := 0 }) =
      (CMDF_ERROR_TOO_MANY_ARGS, false) ∧
      ((cmdf__default_do_help (fun _ => sampleEntryU) sampleSettingsU
          none).2 = true ↔ (none : Option cmdf_arglist) = none) :=
  ⟨(claim_C10_help_args Unit (fun _ => sampleEntryU) sampleSettingsU).1
      ⟨[], 0⟩ (by decide),
    (claim_C10_help_args Unit (fun _ => sampleEntryU) sampleSettingsU).2 none⟩

end LibCmdf
